import Mathlib

/-!
Verification of the vulkan-tutorial repository's two algorithmic cores:
the Sierpinski fractal mesh generator (`LveAppBase::sierpinski` in
`lve_app_base.cpp`) and the point-light compositor
(`UnitSystem::update` / `UnitSystem::render` in `systems/unit_system.cpp`).

Geometry is embedded over `ℚ` (the source uses 32-bit floats; every claim
here is structural — counts, ordering, exact field copies and halving —
so exact rationals are the faithful executable model).
-/

/-- 2D float vector (`glm::vec2`), embedded over `ℚ`. -/
structure Vec2 where
  x : ℚ
  y : ℚ
deriving DecidableEq

/-- 3D float vector (`glm::vec3`), embedded over `ℚ`. -/
structure Vec3 where
  x : ℚ
  y : ℚ
  z : ℚ
deriving DecidableEq

/-- 4D float vector (`glm::vec4`), embedded over `ℚ`. -/
structure Vec4 where
  x : ℚ
  y : ℚ
  z : ℚ
  w : ℚ
deriving DecidableEq

instance : Add Vec2 := ⟨fun a b => ⟨a.x + b.x, a.y + b.y⟩⟩

instance : HMul ℚ Vec2 Vec2 := ⟨fun q v => ⟨q * v.x, q * v.y⟩⟩

/-- Componentwise subtraction of `glm::vec3`. -/
def Vec3.sub (a b : Vec3) : Vec3 := ⟨a.x - b.x, a.y - b.y, a.z - b.z⟩

/-- `glm::dot` on 3D vectors. -/
def Vec3.dot (a b : Vec3) : ℚ := a.x * b.x + a.y * b.y + a.z * b.z

/-- `LveModel::Vertex`: 2D position plus RGB color, as pushed by the generator. -/
structure Vertex where
  position : Vec2
  color : Vec3
deriving DecidableEq

/-- The fixed color `{1.0f, 0.0f, 0.0f}` tagged onto the top corner. -/
def red : Vec3 := ⟨1, 0, 0⟩

/-- The fixed color `{0.0f, 1.0f, 0.0f}` tagged onto the right corner. -/
def green : Vec3 := ⟨0, 1, 0⟩

/-- The fixed color `{0.0f, 0.0f, 1.0f}` tagged onto the left corner. -/
def blue : Vec3 := ⟨0, 0, 1⟩

/-- `LveAppBase::sierpinski` from `lve_app_base.cpp`: appends the fractal's
vertices to the caller-supplied `vertices` list.  The C++ takes the vector by
reference and mutates it; the embedding passes the list state explicitly and
returns the final contents.  The branch condition is the source's
`if (depth <= 0)`, with `depth` a C++ `int`, hence `Int` here. -/
def sierpinski (vertices : List Vertex) (depth : Int) (left right top : Vec2) :
    List Vertex :=
  if depth ≤ 0 then
    vertices ++ [⟨top, red⟩, ⟨right, green⟩, ⟨left, blue⟩]
  else
    let leftTop := (1 / 2 : ℚ) * (left + top)
    let rightTop := (1 / 2 : ℚ) * (right + top)
    let leftRight := (1 / 2 : ℚ) * (left + right)
    sierpinski
      (sierpinski
        (sierpinski vertices (depth - 1) left leftRight leftTop)
        (depth - 1) leftRight right rightTop)
      (depth - 1) leftTop rightTop top
termination_by depth.toNat
decreasing_by
  all_goals omega

/-!
Embedding of `UnitSystem` (`systems/unit_system.cpp`): the per-frame point
light pass.  `update` rotates each light and copies it into the bounded UBO
array; `render` builds a `std::map` keyed by squared camera distance and walks
it in reverse to emit one push-constant record per entry, farthest first.
-/

/-- `MAX_LIGHTS` from the frame-info header. -/
def MAX_LIGHTS : Nat := 100

/-- `PointLight` shader struct stored in the global UBO: `position` (w
ignored) and `color` (w is intensity). -/
structure PointLight where
  position : Vec4
  color : Vec4
deriving DecidableEq

/-- The slice of `GlobalUbo` that `UnitSystem::update` reads or writes: the
bounded light array and the light count.  The camera matrices and ambient
color are never touched by this system. -/
structure GlobalUbo where
  pointLights : Fin MAX_LIGHTS → PointLight
  numLights : Int

/-- The `pointLight` component: present iff the object is a point light. -/
structure PointLightComponent where
  lightIntensity : ℚ
deriving DecidableEq

/-- Transform component: translation and scale as used by this system. -/
structure TransformComponent where
  translation : Vec3
  scale : Vec3
deriving DecidableEq

/-- A game object as seen by `UnitSystem`: stable id, transform, color, and
the optional point-light component (`nullptr` = `none`).  The frame's
`gameObjects` map is embedded as a list in its iteration order. -/
structure GameObject where
  id : Nat
  transform : TransformComponent
  color : Vec3
  pointLight : Option PointLightComponent
deriving DecidableEq

/-- `UnitPushConstants` from `unit_system.cpp`. -/
structure UnitPushConstants where
  position : Vec4
  color : Vec4
  radius : ℚ
deriving DecidableEq

/-- The point-light objects of the frame, in iteration order (the loops skip
every object whose `pointLight` is null). -/
def lightsOf (gameObjects : List GameObject) : List GameObject :=
  gameObjects.filter (fun o => o.pointLight.isSome)

/-- `disSquared`: `glm::dot(offset, offset)` for
`offset = camera.getPosition() - obj.transform.translation`. -/
def disSquared (cameraPosition translation : Vec3) : ℚ :=
  Vec3.dot (cameraPosition.sub translation) (cameraPosition.sub translation)

/-- The sort key `render` computes for one object. -/
def sortKey (cameraPosition : Vec3) (obj : GameObject) : ℚ :=
  disSquared cameraPosition obj.transform.translation

/-- `sorted[disSquared] = obj.getId()` on the `std::map<float, id_t>`,
embedded as an association list kept in strictly increasing key order:
insert at the sorted position, or overwrite the value if the key is already
present (the single-valued map keeps one id per key). -/
def mapAssign (m : List (ℚ × Nat)) (k : ℚ) (v : Nat) : List (ℚ × Nat) :=
  match m with
  | [] => [(k, v)]
  | (k0, v0) :: rest =>
    if k < k0 then (k, v) :: (k0, v0) :: rest
    else if k = k0 then (k, v) :: rest
    else (k0, v0) :: mapAssign rest k v

/-- The first loop of `UnitSystem::render`: fold the lights into the
distance-keyed map `sorted`, starting from map state `m`. -/
def renderSortLoop (cameraPosition : Vec3) (m : List (ℚ × Nat)) :
    List GameObject → List (ℚ × Nat)
  | [] => m
  | obj :: rest =>
    match obj.pointLight with
    | none => renderSortLoop cameraPosition m rest
    | some _ =>
      renderSortLoop cameraPosition
        (mapAssign m (sortKey cameraPosition obj) obj.id) rest

/-- The `sorted` map at the end of the first loop of `render`. -/
def renderSorted (cameraPosition : Vec3) (gameObjects : List GameObject) :
    List (ℚ × Nat) :=
  renderSortLoop cameraPosition [] gameObjects

/-- `frameInfo.gameObjects.at(id)`: resolve an id back to its game object. -/
def gameObjectAt (gameObjects : List GameObject) (i : Nat) : Option GameObject :=
  gameObjects.find? (fun o => o.id == i)

/-- The push-constant record the emission loop builds for one object:
`position = (translation, 1)`, `color = (color, intensity)`,
`radius = scale.x`.  `none` stands for the null `pointLight` dereference,
which cannot occur for ids taken from the map. -/
def lightPushConstant (obj : GameObject) : Option UnitPushConstants :=
  obj.pointLight.map (fun pl =>
    ⟨⟨obj.transform.translation.x, obj.transform.translation.y,
        obj.transform.translation.z, 1⟩,
      ⟨obj.color.x, obj.color.y, obj.color.z, pl.lightIntensity⟩,
      obj.transform.scale.x⟩)

/-- `UnitSystem::render`: build the distance map, then iterate it from
`rbegin()` to `rend()` (descending key order) emitting one push-constant
record per entry. -/
def render (cameraPosition : Vec3) (gameObjects : List GameObject) :
    List UnitPushConstants :=
  (renderSorted cameraPosition gameObjects).reverse.filterMap
    (fun kv => (gameObjectAt gameObjects kv.2).bind lightPushConstant)

/-- The id sequence the emission loop visits: map values in reverse key
order, farthest first. -/
def drawOrder (cameraPosition : Vec3) (gameObjects : List GameObject) :
    List Nat :=
  ((renderSorted cameraPosition gameObjects).reverse).map Prod.snd

/-- Association-list lookup in the distance map (`std::map::find` semantics). -/
def alookup (m : List (ℚ × Nat)) (k : ℚ) : Option Nat :=
  match m with
  | [] => none
  | (k0, v0) :: rest => if k = k0 then some v0 else alookup rest k

/-- The ids of the lights whose sort key equals `k`, in iteration order. -/
def idsAtKey (cameraPosition : Vec3) (gameObjects : List GameObject) (k : ℚ) :
    List Nat :=
  ((lightsOf gameObjects).filter
      (fun o => decide (sortKey cameraPosition o = k))).map GameObject.id

/-- The in-place mutation `obj.transform.translation = vec3(rotateLight *
vec4(translation, 1))` for one object. -/
def rotateObj (rotateLight : Vec3 → Vec3) (obj : GameObject) : GameObject :=
  { obj with transform :=
      { obj.transform with translation := rotateLight obj.transform.translation } }

/-- The UBO entry `update` copies for one (already rotated) light:
`position = (translation, 1)`, `color = (color, intensity)`. -/
def uboLightRecord (obj : GameObject) : PointLight :=
  ⟨⟨obj.transform.translation.x, obj.transform.translation.y,
      obj.transform.translation.z, 1⟩,
    ⟨obj.color.x, obj.color.y, obj.color.z,
      ((obj.pointLight.map PointLightComponent.lightIntensity).getD 0)⟩⟩

/-- The loop of `UnitSystem::update`, threading the game objects, the UBO and
`lightIndex`.  `none` models the fatal `assert(lightIndex < MAX_LIGHTS)`
firing; otherwise the light is rotated in place and copied into
`ubo.pointLights[lightIndex]`. -/
def updateLoop (rotateLight : Vec3 → Vec3) :
    List GameObject → GlobalUbo → Nat →
      Option (List GameObject × GlobalUbo × Nat)
  | [], ubo, lightIndex => some ([], ubo, lightIndex)
  | obj :: rest, ubo, lightIndex =>
    match obj.pointLight with
    | none =>
      (updateLoop rotateLight rest ubo lightIndex).map
        (fun r => (obj :: r.1, r.2.1, r.2.2))
    | some _ =>
      if h : lightIndex < MAX_LIGHTS then
        let obj1 := rotateObj rotateLight obj
        let ubo1 : GlobalUbo :=
          { ubo with pointLights :=
              Function.update ubo.pointLights ⟨lightIndex, h⟩ (uboLightRecord obj1) }
        (updateLoop rotateLight rest ubo1 (lightIndex + 1)).map
          (fun r => (obj1 :: r.1, r.2.1, r.2.2))
      else none

/-- `UnitSystem::update`: builds the frame's rotation — `glm::rotate` (an
external library function, taken here as the uninterpreted parameter
`glmRotate` mapping angle and axis to a rotation of 3D vectors) applied to the
angle `0.5f * frameInfo.frameTime` and the fixed axis `{-.5f, -1.f, 0.f}` —
then runs the loop from `lightIndex = 0` and finally stores the light count in
`ubo.numLights`. -/
def update (glmRotate : ℚ → Vec3 → Vec3 → Vec3) (frameTime : ℚ)
    (gameObjects : List GameObject) (ubo : GlobalUbo) :
    Option (List GameObject × GlobalUbo) :=
  let rotateLight := glmRotate (1 / 2 * frameTime) ⟨-(1 / 2), -1, 0⟩
  (updateLoop rotateLight gameObjects ubo 0).map
    (fun r => (r.1, { r.2.1 with numLights := (r.2.2 : Int) }))

/-- Modelled from the spec: the per-frame driver of the light system (it
lives outside `src/`) runs `update` and then `render` over the same game
objects within one rendered frame; the spec describes this as the single
per-frame compositor pass that also mutates the light positions and fills the
bounded UBO array. -/
def unitSystemFrame (glmRotate : ℚ → Vec3 → Vec3 → Vec3) (frameTime : ℚ)
    (cameraPosition : Vec3) (gameObjects : List GameObject) (ubo : GlobalUbo) :
    Option (List GameObject × GlobalUbo × List UnitPushConstants) :=
  (update glmRotate frameTime gameObjects ubo).map
    (fun r => (r.1, r.2, render cameraPosition r.1))

/-- Fold a list keeping the last element, with a default when empty: the
value a repeatedly overwritten single-valued map slot ends up holding. -/
def lastOrDefault (l : List Nat) (d : Option Nat) : Option Nat :=
  match l with
  | [] => d
  | x :: rest => lastOrDefault rest (some x)

/-- The camera used by the three-light draw-order example. -/
def c2Camera : Vec3 := ⟨0, 0, 0⟩

/-- Example light at squared distance 1 from the camera. -/
def c2LightA : GameObject := ⟨1, ⟨⟨1, 0, 0⟩, ⟨1, 1, 1⟩⟩, ⟨1, 1, 1⟩, some ⟨2⟩⟩

/-- Example light at squared distance 4 from the camera. -/
def c2LightB : GameObject := ⟨2, ⟨⟨2, 0, 0⟩, ⟨1, 1, 1⟩⟩, ⟨0, 1, 0⟩, some ⟨3⟩⟩

/-- Example light at squared distance 9 from the camera. -/
def c2LightC : GameObject := ⟨3, ⟨⟨3, 0, 0⟩, ⟨1, 1, 1⟩⟩, ⟨0, 0, 1⟩, some ⟨4⟩⟩

/-- The three-light example scene: squared distances 1, 4, 9. -/
def c2Objs : List GameObject := [c2LightA, c2LightB, c2LightC]

/-- The camera used by the distance-collision example. -/
def c3Camera : Vec3 := ⟨0, 0, 0⟩

/-- Collision example, first-inserted light (squared distance 1). -/
def c3LightA : GameObject := ⟨1, ⟨⟨1, 0, 0⟩, ⟨1, 1, 1⟩⟩, ⟨1, 0, 0⟩, some ⟨5⟩⟩

/-- Collision example, last-inserted light (also squared distance 1). -/
def c3LightB : GameObject := ⟨2, ⟨⟨-1, 0, 0⟩, ⟨1, 1, 1⟩⟩, ⟨0, 1, 0⟩, some ⟨6⟩⟩

/-- The two-light collision scene: both lights at squared distance 1. -/
def c3Objs : List GameObject := [c3LightA, c3LightB]

/-- The camera used by the record-projection example. -/
def c9Camera : Vec3 := ⟨0, 0, 0⟩

/-- Record-projection example light. -/
def c9Light : GameObject := ⟨7, ⟨⟨1, 2, 3⟩, ⟨4, 5, 6⟩⟩, ⟨1, 0, 1⟩, some ⟨9⟩⟩

/-- The one-light record-projection scene. -/
def c9Objs : List GameObject := [c9Light]

/-- A placeholder for the external `glm::rotate` used by the concrete
examples: it fixes every vector (a rotation map, for the identity matrix). -/
def idRotate : ℚ → Vec3 → Vec3 → Vec3 := fun _ _ v => v

/-- An all-zero UBO used by the capped-update example. -/
def c6Ubo : GlobalUbo := ⟨fun _ => ⟨⟨0, 0, 0, 0⟩, ⟨0, 0, 0, 0⟩⟩, 0⟩

/-- The single light of the capped-update example. -/
def c6Light : GameObject := ⟨1, ⟨⟨1, 0, 0⟩, ⟨1, 1, 1⟩⟩, ⟨1, 1, 1⟩, some ⟨2⟩⟩

/-- The capped-update example scene. -/
def c6Objs : List GameObject := [c6Light]

/-- An all-zero UBO used by the frame-pass example. -/
def c7Ubo : GlobalUbo := ⟨fun _ => ⟨⟨0, 0, 0, 0⟩, ⟨0, 0, 0, 0⟩⟩, 0⟩

/-- The single light of the frame-pass example. -/
def c7Light : GameObject := ⟨4, ⟨⟨2, 0, 0⟩, ⟨1, 1, 1⟩⟩, ⟨1, 1, 0⟩, some ⟨3⟩⟩

/-- The frame-pass example scene. -/
def c7Objs : List GameObject := [c7Light]

/-- Unfolding equation for the recursive branch of `sierpinski`. -/
theorem sierpinski_pos (depth : Int) (h : 0 < depth) (vertices : List Vertex)
    (left right top : Vec2) :
    sierpinski vertices depth left right top =
      sierpinski
        (sierpinski
          (sierpinski vertices (depth - 1) left ((1 / 2 : ℚ) * (left + right))
            ((1 / 2 : ℚ) * (left + top)))
          (depth - 1) ((1 / 2 : ℚ) * (left + right)) right ((1 / 2 : ℚ) * (right + top)))
        (depth - 1) ((1 / 2 : ℚ) * (left + top)) ((1 / 2 : ℚ) * (right + top)) top := by
  rw [sierpinski]
  simp only [if_neg (not_le.mpr h)]

/-- Unfolding equation for the base branch of `sierpinski`. -/
theorem sierpinski_nonpos (depth : Int) (h : depth ≤ 0) (vertices : List Vertex)
    (left right top : Vec2) :
    sierpinski vertices depth left right top =
      vertices ++ [⟨top, red⟩, ⟨right, green⟩, ⟨left, blue⟩] := by
  rw [sierpinski]
  simp only [if_pos h]

/-- The generator only appends: running it on any initial list yields that list
followed by the run on the empty list. -/
theorem sierpinski_append (depth : Int) (vertices : List Vertex)
    (left right top : Vec2) :
    sierpinski vertices depth left right top =
      vertices ++ sierpinski [] depth left right top := by
  have key : ∀ n : ℕ, ∀ depth : Int, depth.toNat ≤ n →
      ∀ (vertices : List Vertex) (left right top : Vec2),
        sierpinski vertices depth left right top =
          vertices ++ sierpinski [] depth left right top := by
    intro n
    induction n with
    | zero =>
      intro depth hd vertices left right top
      have h : depth ≤ 0 := by omega
      rw [sierpinski_nonpos depth h, sierpinski_nonpos depth h, List.nil_append]
    | succ n ih =>
      intro depth hd vertices left right top
      by_cases h : depth ≤ 0
      · rw [sierpinski_nonpos depth h, sierpinski_nonpos depth h, List.nil_append]
      · have h1 : (depth - 1).toNat ≤ n := by omega
        rw [sierpinski_pos depth (by omega), sierpinski_pos depth (by omega)]
        rw [ih (depth - 1) h1 (sierpinski [] (depth - 1) _ _ _)]
        rw [ih (depth - 1) h1 (sierpinski [] (depth - 1) _ _ _ ++ _)]
        rw [ih (depth - 1) h1 vertices]
        rw [ih (depth - 1) h1 (vertices ++ _)]
        rw [ih (depth - 1) h1 ((vertices ++ _) ++ _)]
        simp [List.append_assoc]
  exact key depth.toNat depth le_rfl vertices left right top

/-- Length of the generated vertex list: the run appends `3 * 3 ^ depth.toNat`
vertices to the initial list. -/
theorem sierpinski_length (depth : Int) (vertices : List Vertex)
    (left right top : Vec2) :
    (sierpinski vertices depth left right top).length =
      vertices.length + 3 * 3 ^ depth.toNat := by
  have key : ∀ n : ℕ, ∀ depth : Int, depth.toNat ≤ n →
      ∀ (vertices : List Vertex) (left right top : Vec2),
        (sierpinski vertices depth left right top).length =
          vertices.length + 3 * 3 ^ depth.toNat := by
    intro n
    induction n with
    | zero =>
      intro depth hd vertices left right top
      have h : depth ≤ 0 := by omega
      have h0 : depth.toNat = 0 := by omega
      rw [sierpinski_nonpos depth h, h0]
      simp
    | succ n ih =>
      intro depth hd vertices left right top
      by_cases h : depth ≤ 0
      · have h0 : depth.toNat = 0 := by omega
        rw [sierpinski_nonpos depth h, h0]
        simp
      · have h1 : (depth - 1).toNat ≤ n := by omega
        have hsucc : depth.toNat = (depth - 1).toNat + 1 := by omega
        rw [sierpinski_pos depth (by omega)]
        rw [ih (depth - 1) h1, ih (depth - 1) h1, ih (depth - 1) h1]
        rw [hsucc, pow_succ]
        ring
  exact key depth.toNat depth le_rfl vertices left right top

/-- Claim C1: for every non-negative integer depth and every three 2D corner
points, the generator appends exactly `3 * 3 ^ depth` vertices to the output
list. -/
theorem sierpinski_output_size (d : ℕ) (vertices : List Vertex)
    (left right top : Vec2) :
    (sierpinski vertices (d : Int) left right top).length =
      vertices.length + 3 * 3 ^ d := by
  rw [sierpinski_length]
  simp

/-- Claim C4: at depth 0 the generator emits exactly the three corners in the
order top, right, left, tagged red, green, blue respectively. -/
theorem sierpinski_depth_zero (left right top : Vec2) :
    sierpinski [] 0 left right top =
      [⟨top, red⟩, ⟨right, green⟩, ⟨left, blue⟩] := by
  rw [sierpinski_nonpos 0 le_rfl, List.nil_append]

/-- Claim C5: for positive depth the output is the concatenation of the three
recursive calls at `depth - 1` on the sub-triangles (left, leftRight, leftTop),
(leftRight, right, rightTop), (leftTop, rightTop, top), with each midpoint
computed as `0.5 * (a + b)`. -/
theorem sierpinski_subdivision (depth : Int) (h : 0 < depth)
    (left right top : Vec2) :
    sierpinski [] depth left right top =
      sierpinski [] (depth - 1) left ((1 / 2 : ℚ) * (left + right))
          ((1 / 2 : ℚ) * (left + top)) ++
        sierpinski [] (depth - 1) ((1 / 2 : ℚ) * (left + right)) right
          ((1 / 2 : ℚ) * (right + top)) ++
        sierpinski [] (depth - 1) ((1 / 2 : ℚ) * (left + top))
          ((1 / 2 : ℚ) * (right + top)) top := by
  rw [sierpinski_pos depth h]
  rw [sierpinski_append (depth - 1), sierpinski_append (depth - 1)]

/-- Witness for C5 at depth 1 on the corners (0,0), (1,0), (0,1). -/
theorem sierpinski_subdivision_witness :
    (0 : Int) < 1 ∧
      sierpinski [] 1 ⟨0, 0⟩ ⟨1, 0⟩ ⟨0, 1⟩ =
        sierpinski [] (1 - 1) ⟨0, 0⟩ ((1 / 2 : ℚ) * ((⟨0, 0⟩ : Vec2) + ⟨1, 0⟩))
            ((1 / 2 : ℚ) * ((⟨0, 0⟩ : Vec2) + ⟨0, 1⟩)) ++
          sierpinski [] (1 - 1) ((1 / 2 : ℚ) * ((⟨0, 0⟩ : Vec2) + ⟨1, 0⟩)) ⟨1, 0⟩
            ((1 / 2 : ℚ) * ((⟨1, 0⟩ : Vec2) + ⟨0, 1⟩)) ++
          sierpinski [] (1 - 1) ((1 / 2 : ℚ) * ((⟨0, 0⟩ : Vec2) + ⟨0, 1⟩))
            ((1 / 2 : ℚ) * ((⟨1, 0⟩ : Vec2) + ⟨0, 1⟩)) ⟨0, 1⟩ :=
  ⟨by norm_num, sierpinski_subdivision 1 (by norm_num) ⟨0, 0⟩ ⟨1, 0⟩ ⟨0, 1⟩⟩

/-- Counterexample to claim C8 as stated: at the negative depth `-1` the
source's guard `depth <= 0` takes the base case immediately, so the generator
terminates and emits exactly the three base-case vertices — it does not recurse
unboundedly. -/
theorem sierpinski_negative_depth_terminates :
    sierpinski [] (-1) ⟨0, 0⟩ ⟨1, 0⟩ ⟨0, 1⟩ =
      [⟨⟨0, 1⟩, red⟩, ⟨⟨1, 0⟩, green⟩, ⟨⟨0, 0⟩, blue⟩] := by
  rw [sierpinski_nonpos (-1) (by norm_num), List.nil_append]

/-- Claim C8 (amended): the guard `depth <= 0` catches every non-positive
depth, so for every negative depth the generator terminates at once and
behaves exactly like depth 0, emitting the three base-case vertices. -/
theorem sierpinski_nonpositive_depth (depth : Int) (h : depth ≤ 0)
    (vertices : List Vertex) (left right top : Vec2) :
    sierpinski vertices depth left right top =
      vertices ++ [⟨top, red⟩, ⟨right, green⟩, ⟨left, blue⟩] :=
  sierpinski_nonpos depth h vertices left right top

/-- Witness for the amended C8 at depth -3. -/
theorem sierpinski_nonpositive_depth_witness :
    (-3 : Int) ≤ 0 ∧
      sierpinski [] (-3) ⟨0, 0⟩ ⟨2, 0⟩ ⟨0, 2⟩ =
        [] ++ [⟨⟨0, 2⟩, red⟩, ⟨⟨2, 0⟩, green⟩, ⟨⟨0, 0⟩, blue⟩] :=
  ⟨by norm_num, sierpinski_nonpositive_depth (-3) (by norm_num) [] ⟨0, 0⟩ ⟨2, 0⟩ ⟨0, 2⟩⟩

/-- Claim C10: the generator only appends to the caller-supplied vertex list:
the result is the initial list, element for element, followed by the vertices
generated from the empty list. -/
theorem sierpinski_appends_to_initial (vertices : List Vertex) (depth : Int)
    (left right top : Vec2) :
    sierpinski vertices depth left right top =
      vertices ++ sierpinski [] depth left right top :=
  sierpinski_append depth vertices left right top

/-- Folding from `some x` computes the last element of `x :: l`. -/
theorem lastOrDefault_some (l : List Nat) : ∀ x : Nat,
    lastOrDefault l (some x) = (x :: l).getLast? := by
  induction l with
  | nil => intro x; simp [lastOrDefault]
  | cons y t ih =>
    intro x
    rw [lastOrDefault, ih y, List.getLast?_cons_cons]

/-- Folding from `none` computes `getLast?`. -/
theorem lastOrDefault_none (l : List Nat) :
    lastOrDefault l none = l.getLast? := by
  cases l with
  | nil => rfl
  | cons x t => rw [lastOrDefault, lastOrDefault_some]

/-- Lookup after a map assignment: the assigned key reads back the new value,
every other key is unchanged. -/
theorem alookup_mapAssign (m : List (ℚ × Nat)) (k : ℚ) (v : Nat) (k' : ℚ) :
    alookup (mapAssign m k v) k' = if k' = k then some v else alookup m k' := by
  induction m with
  | nil => simp [mapAssign, alookup]
  | cons p rest ih =>
    obtain ⟨k0, v0⟩ := p
    simp only [mapAssign]
    by_cases h1 : k < k0
    · rw [if_pos h1, alookup]
    · rw [if_neg h1]
      by_cases h2 : k = k0
      · rw [if_pos h2]
        subst h2
        by_cases h3 : k' = k
        · rw [alookup, if_pos h3, if_pos h3]
        · rw [alookup, if_neg h3, if_neg h3, alookup, if_neg h3]
      · rw [if_neg h2]
        by_cases h3 : k' = k0
        · have h4 : ¬k' = k := by
            rw [h3]
            exact fun hh => h2 hh.symm
          rw [alookup, if_pos h3, if_neg h4, alookup, if_pos h3]
        · rw [alookup, if_neg h3, ih, alookup, if_neg h3]

/-- Every entry of `mapAssign m k v` is the new pair or an old entry. -/
theorem mem_mapAssign {m : List (ℚ × Nat)} {k : ℚ} {v : Nat} {p : ℚ × Nat}
    (hp : p ∈ mapAssign m k v) : p = (k, v) ∨ p ∈ m := by
  induction m with
  | nil => simpa [mapAssign] using hp
  | cons q rest ih =>
    obtain ⟨k0, v0⟩ := q
    simp only [mapAssign] at hp
    split_ifs at hp with h1 h2
    · simp only [List.mem_cons] at hp ⊢
      tauto
    · simp only [List.mem_cons] at hp ⊢
      tauto
    · simp only [List.mem_cons] at hp ⊢
      rcases hp with rfl | hp
      · tauto
      · rcases ih hp with h | h <;> tauto

/-- Key set after a map assignment. -/
theorem mapAssign_keys (m : List (ℚ × Nat)) (k : ℚ) (v : Nat) :
    ((mapAssign m k v).map Prod.fst).toFinset =
      insert k ((m.map Prod.fst).toFinset) := by
  induction m with
  | nil => simp [mapAssign]
  | cons q rest ih =>
    obtain ⟨k0, v0⟩ := q
    simp only [mapAssign]
    split_ifs with h1 h2
    · simp
    · subst h2
      simp
    · simp only [List.map_cons, List.toFinset_cons, ih]
      rw [Finset.Insert.comm]

/-- Map assignment preserves the strictly-increasing-keys invariant of the
`std::map` embedding. -/
theorem mapAssign_pairwise {m : List (ℚ × Nat)} (k : ℚ) (v : Nat)
    (hm : m.Pairwise (fun a b => a.1 < b.1)) :
    (mapAssign m k v).Pairwise (fun a b => a.1 < b.1) := by
  induction m with
  | nil => simp [mapAssign]
  | cons q rest ih =>
    obtain ⟨k0, v0⟩ := q
    rw [List.pairwise_cons] at hm
    obtain ⟨h0, hrest⟩ := hm
    simp only [mapAssign]
    split_ifs with h1 h2
    · refine List.Pairwise.cons ?_ (List.Pairwise.cons h0 hrest)
      intro b hb
      rcases List.mem_cons.mp hb with rfl | hb
      · exact h1
      · exact lt_trans h1 (h0 b hb)
    · subst h2
      exact List.Pairwise.cons h0 hrest
    · have hk0 : k0 < k := by
        rcases lt_trichotomy k k0 with h | h | h
        · exact absurd h h1
        · exact absurd h h2
        · exact h
      refine List.Pairwise.cons ?_ (ih hrest)
      intro b hb
      rcases mem_mapAssign hb with rfl | hb
      · exact hk0
      · exact h0 b hb

/-- Assigning a fresh key is, up to order, consing the new pair. -/
theorem mapAssign_perm {m : List (ℚ × Nat)} {k : ℚ} (v : Nat)
    (hk : k ∉ m.map Prod.fst) :
    List.Perm (mapAssign m k v) ((k, v) :: m) := by
  induction m with
  | nil => exact List.Perm.refl _
  | cons q rest ih =>
    obtain ⟨k0, v0⟩ := q
    simp only [List.map_cons, List.mem_cons] at hk
    push_neg at hk
    obtain ⟨hk0, hkrest⟩ := hk
    simp only [mapAssign]
    split_ifs with h1
    · exact List.Perm.refl _
    · exact ((ih hkrest).cons _).trans (List.Perm.swap _ _ _)

/-- A non-light object contributes nothing to the light list. -/
theorem lightsOf_cons_none {obj : GameObject} (rest : List GameObject)
    (h : obj.pointLight = none) : lightsOf (obj :: rest) = lightsOf rest := by
  simp [lightsOf, List.filter_cons, h]

/-- A light object heads the light list. -/
theorem lightsOf_cons_some {obj : GameObject} (rest : List GameObject)
    {pl : PointLightComponent} (h : obj.pointLight = some pl) :
    lightsOf (obj :: rest) = obj :: lightsOf rest := by
  simp [lightsOf, List.filter_cons, h]

/-- `idsAtKey` ignores non-light objects. -/
theorem idsAtKey_cons_none {obj : GameObject} (c : Vec3)
    (rest : List GameObject) (k : ℚ) (h : obj.pointLight = none) :
    idsAtKey c (obj :: rest) k = idsAtKey c rest k := by
  rw [idsAtKey, lightsOf_cons_none rest h, idsAtKey]

/-- `idsAtKey` on a light object: its id is collected iff its key matches. -/
theorem idsAtKey_cons_some {obj : GameObject} (c : Vec3)
    (rest : List GameObject) (k : ℚ) {pl : PointLightComponent}
    (h : obj.pointLight = some pl) :
    idsAtKey c (obj :: rest) k =
      if sortKey c obj = k then obj.id :: idsAtKey c rest k
      else idsAtKey c rest k := by
  rw [idsAtKey, lightsOf_cons_some rest h, List.filter_cons]
  by_cases hk : sortKey c obj = k <;> simp [hk, idsAtKey]

/-- The sort loop preserves the strictly-increasing-keys invariant. -/
theorem renderSortLoop_pairwise (c : Vec3) :
    ∀ (objs : List GameObject) (m : List (ℚ × Nat)),
      m.Pairwise (fun a b => a.1 < b.1) →
      (renderSortLoop c m objs).Pairwise (fun a b => a.1 < b.1) := by
  intro objs
  induction objs with
  | nil =>
    intro m hm
    simpa [renderSortLoop] using hm
  | cons obj rest ih =>
    intro m hm
    cases hol : obj.pointLight with
    | none =>
      simp only [renderSortLoop, hol]
      exact ih m hm
    | some pl =>
      simp only [renderSortLoop, hol]
      exact ih _ (mapAssign_pairwise _ _ hm)

/-- Every map entry comes from the initial map or from one of the lights. -/
theorem renderSortLoop_mem (c : Vec3) :
    ∀ (objs : List GameObject) (m : List (ℚ × Nat)) (p : ℚ × Nat),
      p ∈ renderSortLoop c m objs →
      p ∈ m ∨ ∃ o, o ∈ lightsOf objs ∧ p = (sortKey c o, o.id) := by
  intro objs
  induction objs with
  | nil =>
    intro m p hp
    left
    simpa [renderSortLoop] using hp
  | cons obj rest ih =>
    intro m p hp
    cases hol : obj.pointLight with
    | none =>
      simp only [renderSortLoop, hol] at hp
      rcases ih m p hp with h | ⟨o, ho, rfl⟩
      · left; exact h
      · right
        refine ⟨o, ?_, rfl⟩
        rw [lightsOf_cons_none rest hol]
        exact ho
    | some pl =>
      simp only [renderSortLoop, hol] at hp
      rcases ih _ p hp with h | ⟨o, ho, rfl⟩
      · rcases mem_mapAssign h with rfl | h2
        · right
          refine ⟨obj, ?_, rfl⟩
          rw [lightsOf_cons_some rest hol]
          exact List.mem_cons_self _ _
        · left; exact h2
      · right
        refine ⟨o, ?_, rfl⟩
        rw [lightsOf_cons_some rest hol]
        exact List.mem_cons_of_mem _ ho

/-- The key set of the built map: initial keys plus one key per light. -/
theorem renderSortLoop_keys (c : Vec3) :
    ∀ (objs : List GameObject) (m : List (ℚ × Nat)),
      ((renderSortLoop c m objs).map Prod.fst).toFinset =
        (m.map Prod.fst).toFinset ∪ ((lightsOf objs).map (sortKey c)).toFinset := by
  intro objs
  induction objs with
  | nil =>
    intro m
    simp [renderSortLoop, lightsOf]
  | cons obj rest ih =>
    intro m
    cases hol : obj.pointLight with
    | none =>
      simp only [renderSortLoop, hol]
      rw [ih m, lightsOf_cons_none rest hol]
    | some pl =>
      simp only [renderSortLoop, hol]
      rw [ih _, mapAssign_keys, lightsOf_cons_some rest hol]
      simp only [List.map_cons, List.toFinset_cons, Finset.insert_union,
        Finset.union_insert]

/-- Lookup in the built map: the last light with that key wins, else the
initial map's binding survives. -/
theorem renderSortLoop_alookup (c : Vec3) :
    ∀ (objs : List GameObject) (m : List (ℚ × Nat)) (k : ℚ),
      alookup (renderSortLoop c m objs) k =
        lastOrDefault (idsAtKey c objs k) (alookup m k) := by
  intro objs
  induction objs with
  | nil =>
    intro m k
    simp [renderSortLoop, idsAtKey, lightsOf, lastOrDefault]
  | cons obj rest ih =>
    intro m k
    cases hol : obj.pointLight with
    | none =>
      simp only [renderSortLoop, hol]
      rw [ih m k, idsAtKey_cons_none c rest k hol]
    | some pl =>
      simp only [renderSortLoop, hol]
      rw [ih _ k, idsAtKey_cons_some c rest k hol, alookup_mapAssign]
      by_cases hk : sortKey c obj = k
      · rw [if_pos hk, if_pos hk.symm, lastOrDefault]
      · rw [if_neg hk, if_neg (fun hh => hk hh.symm)]

/-- With pairwise distinct light keys that avoid the initial map, the built
map is a permutation of the initial entries plus one (key, id) pair per
light. -/
theorem renderSortLoop_perm (c : Vec3) :
    ∀ (objs : List GameObject) (m : List (ℚ × Nat)),
      (∀ o ∈ lightsOf objs, sortKey c o ∉ m.map Prod.fst) →
      ((lightsOf objs).map (sortKey c)).Pairwise (fun a b => a ≠ b) →
      List.Perm (renderSortLoop c m objs)
        (m ++ (lightsOf objs).map (fun o => (sortKey c o, o.id))) := by
  intro objs
  induction objs with
  | nil =>
    intro m _ _
    simp only [lightsOf, List.filter_nil, List.map_nil, List.append_nil]
    exact List.Perm.refl _
  | cons obj rest ih =>
    intro m hdisj hdist
    cases hol : obj.pointLight with
    | none =>
      simp only [renderSortLoop, hol]
      rw [lightsOf_cons_none rest hol]
      rw [lightsOf_cons_none rest hol] at hdisj hdist
      exact ih m hdisj hdist
    | some pl =>
      simp only [renderSortLoop, hol]
      rw [lightsOf_cons_some rest hol] at hdisj hdist ⊢
      rw [List.map_cons] at hdist ⊢
      rw [List.pairwise_cons] at hdist
      obtain ⟨hhead, htail⟩ := hdist
      have hdisj1 : ∀ o ∈ lightsOf rest,
          sortKey c o ∉ (mapAssign m (sortKey c obj) obj.id).map Prod.fst := by
        intro o ho hmem
        rw [List.mem_map] at hmem
        obtain ⟨p, hp, hp1⟩ := hmem
        rcases mem_mapAssign hp with rfl | hp2
        · exact hhead (sortKey c o) (List.mem_map_of_mem _ ho) hp1
        · exact hdisj o (List.mem_cons_of_mem obj ho)
            (hp1 ▸ List.mem_map_of_mem Prod.fst hp2)
      have step1 := ih (mapAssign m (sortKey c obj) obj.id) hdisj1 htail
      have step2 : List.Perm
          (mapAssign m (sortKey c obj) obj.id ++
            (lightsOf rest).map (fun o => (sortKey c o, o.id)))
          (((sortKey c obj, obj.id) :: m) ++
            (lightsOf rest).map (fun o => (sortKey c o, o.id))) :=
        List.Perm.append_right _
          (mapAssign_perm obj.id (hdisj obj (List.mem_cons_self obj _)))
      refine (step1.trans step2).trans ?_
      rw [List.cons_append]
      exact List.perm_middle.symm

/-- When ids are unique, resolving a member's id finds exactly that object. -/
theorem gameObjectAt_of_nodup :
    ∀ (objs : List GameObject), (objs.map GameObject.id).Nodup →
      ∀ o ∈ objs, gameObjectAt objs o.id = some o := by
  intro objs
  induction objs with
  | nil =>
    intro _ o ho
    cases ho
  | cons a rest ih =>
    intro hnd o ho
    rw [List.map_cons, List.nodup_cons] at hnd
    obtain ⟨hna, hnrest⟩ := hnd
    rcases List.mem_cons.mp ho with rfl | ho
    · simp only [gameObjectAt]
      rw [List.find?_cons_of_pos _ (by simp)]
    · have hne : (a.id == o.id) = false := by
        simp only [beq_eq_false_iff_ne, ne_eq]
        intro hh
        exact hna (hh ▸ List.mem_map_of_mem GameObject.id ho)
      simp only [gameObjectAt]
      rw [List.find?_cons_of_neg _ (by simp [hne])]
      exact ih hnrest o ho

/-- `filterMap` with no dropped element keeps the length. -/
theorem length_filterMap_of_isSome {α β : Type} (f : α → Option β) :
    ∀ L : List α, (∀ a ∈ L, (f a).isSome) → (L.filterMap f).length = L.length := by
  intro L
  induction L with
  | nil =>
    intro _
    rfl
  | cons a rest ih =>
    intro h
    have ha := h a (List.mem_cons_self a rest)
    rw [Option.isSome_iff_exists] at ha
    obtain ⟨b, hb⟩ := ha
    simp only [List.filterMap_cons, hb, List.length_cons]
    rw [ih (fun x hx => h x (List.mem_cons_of_mem a hx))]

/-- `filterMap` with no dropped element acts pointwise on `get?`. -/
theorem filterMap_get?_of_isSome {α β : Type} (f : α → Option β) :
    ∀ (L : List α), (∀ a ∈ L, (f a).isSome) →
      ∀ j : Nat, (L.filterMap f).get? j = (L.get? j).bind f := by
  intro L
  induction L with
  | nil =>
    intro _ j
    simp
  | cons a rest ih =>
    intro h j
    obtain ⟨b, hb⟩ :=
      Option.isSome_iff_exists.mp (h a (List.mem_cons_self a rest))
    rw [List.filterMap_cons_some hb]
    cases j with
    | zero => simp [hb]
    | succ j1 =>
      rw [List.get?_cons_succ, List.get?_cons_succ]
      exact ih (fun x hx => h x (List.mem_cons_of_mem a hx)) j1

/-- With unique ids, every entry of the reverse map walk resolves to a light
whose push-constant record exists. -/
theorem render_entry_isSome (cameraPosition : Vec3) (gameObjects : List GameObject)
    (hid : (gameObjects.map GameObject.id).Nodup) :
    ∀ kv ∈ (renderSorted cameraPosition gameObjects).reverse,
      ((gameObjectAt gameObjects kv.2).bind lightPushConstant).isSome := by
  intro kv hkv
  have hkv2 : kv ∈ renderSorted cameraPosition gameObjects :=
    List.mem_reverse.mp hkv
  rcases renderSortLoop_mem cameraPosition gameObjects [] kv hkv2 with
    h | ⟨o, ho, rfl⟩
  · exact absurd h (List.not_mem_nil kv)
  · have hoin : o ∈ gameObjects := List.mem_of_mem_filter ho
    have hfind : gameObjectAt gameObjects o.id = some o :=
      gameObjectAt_of_nodup gameObjects hid o hoin
    obtain ⟨pl, hpl⟩ :=
      Option.isSome_iff_exists.mp (List.mem_filter.mp ho).2
    simp [hfind, lightPushConstant, hpl]

/-- With unique ids, emission drops no record: one per map entry. -/
theorem render_length_eq (cameraPosition : Vec3) (gameObjects : List GameObject)
    (hid : (gameObjects.map GameObject.id).Nodup) :
    (render cameraPosition gameObjects).length =
      (renderSorted cameraPosition gameObjects).length := by
  rw [render, ← List.length_reverse (renderSorted cameraPosition gameObjects)]
  exact length_filterMap_of_isSome _ _
    (render_entry_isSome cameraPosition gameObjects hid)

/-- Claim C2: with unique ids and pairwise distinct squared distances, the
reverse map walk visits exactly one (distance, id) pair per light, its keys
strictly decrease (farthest first, nearest last), and one shader record is
emitted per light. -/
theorem render_draw_order (cameraPosition : Vec3) (gameObjects : List GameObject)
    (hid : (gameObjects.map GameObject.id).Nodup)
    (hdist : ((lightsOf gameObjects).map (sortKey cameraPosition)).Pairwise
      (fun a b => a ≠ b)) :
    List.Perm ((renderSorted cameraPosition gameObjects).reverse)
        ((lightsOf gameObjects).map (fun o => (sortKey cameraPosition o, o.id))) ∧
      ((renderSorted cameraPosition gameObjects).reverse).Pairwise
        (fun a b => b.1 < a.1) ∧
      (render cameraPosition gameObjects).length = (lightsOf gameObjects).length := by
  have hperm0 : List.Perm (renderSorted cameraPosition gameObjects)
      ((lightsOf gameObjects).map fun o => (sortKey cameraPosition o, o.id)) := by
    have hp := renderSortLoop_perm cameraPosition gameObjects []
      (by intro o ho; simp) hdist
    simpa [renderSorted] using hp
  refine ⟨(List.reverse_perm _).trans hperm0, ?_, ?_⟩
  · rw [List.pairwise_reverse]
    exact renderSortLoop_pairwise cameraPosition gameObjects [] List.Pairwise.nil
  · rw [render_length_eq cameraPosition gameObjects hid, hperm0.length_eq,
      List.length_map]

/-- Witness for C2: three lights at squared distances 1, 4, 9 are emitted
farthest to nearest, ids [3, 2, 1]. -/
theorem render_draw_order_witness :
    ((c2Objs.map GameObject.id).Nodup ∧
        ((lightsOf c2Objs).map (sortKey c2Camera)).Pairwise (fun a b => a ≠ b)) ∧
      (render c2Camera c2Objs).length = (lightsOf c2Objs).length ∧
      drawOrder c2Camera c2Objs = [3, 2, 1] :=
  ⟨⟨by decide,
      by norm_num [lightsOf, sortKey, disSquared, Vec3.sub, Vec3.dot, c2Camera,
        c2LightA, c2LightB, c2LightC, c2Objs, List.pairwise_cons]⟩,
    (render_draw_order c2Camera c2Objs (by decide)
      (by norm_num [lightsOf, sortKey, disSquared, Vec3.sub, Vec3.dot, c2Camera,
        c2LightA, c2LightB, c2LightC, c2Objs, List.pairwise_cons])).2.2,
    by norm_num [drawOrder, renderSorted, renderSortLoop, mapAssign, sortKey,
      disSquared, Vec3.sub, Vec3.dot, lightsOf, c2Camera, c2LightA, c2LightB,
      c2LightC, c2Objs]⟩

/-- Claim C3: the single-valued distance-keyed map keeps, per key, only the
last light inserted under that key, and the number of emitted records equals
the number of distinct squared-distance keys (not the number of lights). -/
theorem render_collision_last_wins (cameraPosition : Vec3)
    (gameObjects : List GameObject)
    (hid : (gameObjects.map GameObject.id).Nodup) :
    (∀ k : ℚ, alookup (renderSorted cameraPosition gameObjects) k =
        (idsAtKey cameraPosition gameObjects k).getLast?) ∧
      (render cameraPosition gameObjects).length =
        ((lightsOf gameObjects).map (sortKey cameraPosition)).toFinset.card := by
  constructor
  · intro k
    rw [renderSorted, renderSortLoop_alookup cameraPosition gameObjects [] k]
    rw [show alookup [] k = none from rfl, lastOrDefault_none]
  · have hpw := renderSortLoop_pairwise cameraPosition gameObjects []
      List.Pairwise.nil
    have hnd : ((renderSorted cameraPosition gameObjects).map Prod.fst).Nodup :=
      hpw.map Prod.fst (fun a b hab => ne_of_lt hab)
    rw [render_length_eq cameraPosition gameObjects hid,
      ← List.length_map (renderSorted cameraPosition gameObjects) Prod.fst,
      ← List.toFinset_card_of_nodup hnd]
    congr 1
    have hkeys := renderSortLoop_keys cameraPosition gameObjects []
    simpa [renderSorted] using hkeys

/-- Witness for C3: two lights at equal squared distance collapse to the
last-inserted one; a single record is emitted for two lights. -/
theorem render_collision_last_wins_witness :
    (c3Objs.map GameObject.id).Nodup ∧
      (alookup (renderSorted c3Camera c3Objs) 1 =
          (idsAtKey c3Camera c3Objs 1).getLast? ∧
        (render c3Camera c3Objs).length =
          ((lightsOf c3Objs).map (sortKey c3Camera)).toFinset.card) ∧
      alookup (renderSorted c3Camera c3Objs) 1 = some 2 ∧
      (render c3Camera c3Objs).length = 1 ∧ (lightsOf c3Objs).length = 2 :=
  ⟨by decide,
    ⟨(render_collision_last_wins c3Camera c3Objs (by decide)).1 1,
      (render_collision_last_wins c3Camera c3Objs (by decide)).2⟩,
    by norm_num [alookup, renderSorted, renderSortLoop, mapAssign, sortKey,
      disSquared, Vec3.sub, Vec3.dot, c3Camera, c3LightA, c3LightB, c3Objs],
    by
      norm_num [render, renderSorted, renderSortLoop, mapAssign, sortKey,
        disSquared, Vec3.sub, Vec3.dot, c3Camera, c3LightA, c3LightB, c3Objs,
        gameObjectAt, lightPushConstant, List.filterMap_cons, List.find?]
      try rfl,
    by decide⟩

/-- Claim C9: position by position in the resolved draw order, the emitted
shader record belongs to that position's own light: the id stored at draw
position j resolves (via `gameObjects.at`) to an object o carrying a light
component pl, and the j-th emitted record is exactly o's projection —
position = o's translation with w = 1, color = o's color with
w = pl's intensity, radius = the x component of o's transform scale.  No
record is dropped or added: there are as many records as draw positions. -/
theorem render_record_fields (cameraPosition : Vec3)
    (gameObjects : List GameObject)
    (hid : (gameObjects.map GameObject.id).Nodup) :
    (render cameraPosition gameObjects).length =
      (drawOrder cameraPosition gameObjects).length ∧
    ∀ (j i : Nat),
      (drawOrder cameraPosition gameObjects).get? j = some i →
      ∃ o pl,
        gameObjectAt gameObjects i = some o ∧
        o.pointLight = some pl ∧
        (render cameraPosition gameObjects).get? j =
          some ⟨⟨o.transform.translation.x, o.transform.translation.y,
              o.transform.translation.z, 1⟩,
            ⟨o.color.x, o.color.y, o.color.z, pl.lightIntensity⟩,
            o.transform.scale.x⟩ := by
  have hsome := render_entry_isSome cameraPosition gameObjects hid
  constructor
  · rw [render_length_eq cameraPosition gameObjects hid, drawOrder,
      List.length_map, List.length_reverse]
  · intro j i hget
    rw [drawOrder, List.get?_map, Option.map_eq_some'] at hget
    obtain ⟨kv, hkv, hkvi⟩ := hget
    have hkvmem : kv ∈ (renderSorted cameraPosition gameObjects).reverse :=
      List.get?_mem hkv
    have hs := hsome kv hkvmem
    cases hfind : gameObjectAt gameObjects kv.2 with
    | none =>
      rw [hfind] at hs
      simp at hs
    | some o =>
      rw [hfind] at hs
      cases hpl : o.pointLight with
      | none =>
        rw [Option.some_bind, lightPushConstant, hpl] at hs
        simp at hs
      | some pl =>
        refine ⟨o, pl, by rw [← hkvi]; exact hfind, hpl, ?_⟩
        rw [render, filterMap_get?_of_isSome _ _ hsome j, hkv]
        simp [hfind, lightPushConstant, hpl]

/-- Witness for C9 on a concrete light: the single draw position 0 holds the
id 7 and its record is the projection of the object with that id. -/
theorem render_record_fields_witness :
    (c9Objs.map GameObject.id).Nodup ∧
      (drawOrder c9Camera c9Objs).get? 0 = some 7 ∧
      ∃ o pl,
        gameObjectAt c9Objs 7 = some o ∧
        o.pointLight = some pl ∧
        (render c9Camera c9Objs).get? 0 =
          some ⟨⟨o.transform.translation.x, o.transform.translation.y,
              o.transform.translation.z, 1⟩,
            ⟨o.color.x, o.color.y, o.color.z, pl.lightIntensity⟩,
            o.transform.scale.x⟩ :=
  ⟨by decide, by decide,
    (render_record_fields c9Camera c9Objs (by decide)).2 0 7 (by decide)⟩

/-- If there is at least one light and the indices would run past the cap,
the update loop hits the fatal assertion. -/
theorem updateLoop_overflow (rotateLight : Vec3 → Vec3) :
    ∀ (objs : List GameObject) (ubo : GlobalUbo) (idx : Nat),
      0 < (lightsOf objs).length → MAX_LIGHTS < idx + (lightsOf objs).length →
      updateLoop rotateLight objs ubo idx = none := by
  intro objs
  induction objs with
  | nil =>
    intro ubo idx h0 _
    simp [lightsOf] at h0
  | cons obj rest ih =>
    intro ubo idx h0 hover
    cases hol : obj.pointLight with
    | none =>
      rw [lightsOf_cons_none rest hol] at h0 hover
      simp only [updateLoop, hol]
      rw [ih ubo idx h0 hover]
      rfl
    | some pl =>
      rw [lightsOf_cons_some rest hol, List.length_cons] at hover
      simp only [updateLoop, hol]
      by_cases h : idx < MAX_LIGHTS
      · rw [dif_pos h]
        have h0' : 0 < (lightsOf rest).length := by omega
        rw [ih _ (idx + 1) h0' (by omega)]
        rfl
      · rw [dif_neg h]

/-- Full characterization of a successful update loop run: it returns the
rotated objects and the final index `idx + number of lights`, leaves
`numLights` and the slots outside `[idx, idx + lights)` alone, and writes the
record of the j-th (rotated) light at slot `idx + j`. -/
theorem updateLoop_success (rotateLight : Vec3 → Vec3) :
    ∀ (objs : List GameObject) (ubo : GlobalUbo) (idx : Nat),
      idx + (lightsOf objs).length ≤ MAX_LIGHTS →
      ∃ objs1 ubo1,
        updateLoop rotateLight objs ubo idx =
          some (objs1, ubo1, idx + (lightsOf objs).length) ∧
        objs1 = objs.map (fun o =>
          if o.pointLight.isSome then rotateObj rotateLight o else o) ∧
        ubo1.numLights = ubo.numLights ∧
        (∀ i : Fin MAX_LIGHTS, (i.1 < idx ∨ idx + (lightsOf objs).length ≤ i.1) →
          ubo1.pointLights i = ubo.pointLights i) ∧
        (∀ (j : Nat) (hi : idx + j < MAX_LIGHTS) (o : GameObject),
          (lightsOf objs).get? j = some o →
          ubo1.pointLights ⟨idx + j, hi⟩ =
            uboLightRecord (rotateObj rotateLight o)) := by
  intro objs
  induction objs with
  | nil =>
    intro ubo idx _
    refine ⟨[], ubo, ?_, rfl, rfl, fun i _ => rfl, ?_⟩
    · simp [updateLoop, lightsOf]
    · intro j hi o hget
      simp [lightsOf] at hget
  | cons obj rest ih =>
    intro ubo idx hcap
    cases hol : obj.pointLight with
    | none =>
      rw [lightsOf_cons_none rest hol] at hcap ⊢
      obtain ⟨objs1, ubo1, heq, hobjs, hnum, hun, hwr⟩ := ih ubo idx hcap
      refine ⟨obj :: objs1, ubo1, ?_, ?_, hnum, hun, hwr⟩
      · simp only [updateLoop, hol]
        rw [heq]
        rfl
      · rw [List.map_cons, hobjs]
        simp [hol]
    | some pl =>
      rw [lightsOf_cons_some rest hol, List.length_cons] at hcap ⊢
      have h : idx < MAX_LIGHTS := by omega
      obtain ⟨objs1, ubo1, heq, hobjs, hnum, hun, hwr⟩ :=
        ih { ubo with pointLights := (Function.update ubo.pointLights ⟨idx, h⟩
              (uboLightRecord (rotateObj rotateLight obj))) } (idx + 1) (by omega)
      refine ⟨rotateObj rotateLight obj :: objs1, ubo1, ?_, ?_, ?_, ?_, ?_⟩
      · simp only [updateLoop, hol]
        rw [dif_pos h, heq]
        simp only [Option.map_some']
        have harith : idx + 1 + (lightsOf rest).length =
            idx + ((lightsOf rest).length + 1) := by omega
        rw [harith]
      · rw [List.map_cons, hobjs]
        simp [hol]
      · exact hnum
      · intro i hi
        have hi1 : i.1 < idx + 1 ∨ idx + 1 + (lightsOf rest).length ≤ i.1 := by
          omega
        rw [hun i hi1]
        dsimp only
        rw [Function.update_apply, if_neg]
        intro hcon
        have hive : i.1 = idx := by
          rw [hcon]
        omega
      · intro j hi o hget
        cases j with
        | zero =>
          rw [List.get?_cons_zero] at hget
          cases hget
          have hi1 : (⟨idx + 0, hi⟩ : Fin MAX_LIGHTS).1 < idx + 1 ∨
              idx + 1 + (lightsOf rest).length ≤ (⟨idx + 0, hi⟩ : Fin MAX_LIGHTS).1 := by
            left
            show idx + 0 < idx + 1
            omega
          rw [hun ⟨idx + 0, hi⟩ hi1]
          dsimp only
          rw [Function.update_apply,
            if_pos (Fin.ext (show idx + 0 = idx by omega))]
        | succ j1 =>
          rw [List.get?_cons_succ] at hget
          have hi1 : idx + 1 + j1 < MAX_LIGHTS := by omega
          have hfin : (⟨idx + (j1 + 1), hi⟩ : Fin MAX_LIGHTS) =
              ⟨idx + 1 + j1, hi1⟩ := Fin.ext (show idx + (j1 + 1) = idx + 1 + j1 by omega)
          rw [hfin]
          exact hwr j1 hi1 o hget

/-- Claim C6: with at most `MAX_LIGHTS` point lights the fatal assertion in
the update pass is unreachable, every light is written at a slot strictly
below `MAX_LIGHTS` (slot j holds the record of the j-th rotated light and the
final count equals the number of lights); with more than `MAX_LIGHTS` lights
the pass is fatal. -/
theorem update_light_cap (glmRotate : ℚ → Vec3 → Vec3 → Vec3) (frameTime : ℚ)
    (gameObjects : List GameObject) (ubo : GlobalUbo) :
    ((lightsOf gameObjects).length ≤ MAX_LIGHTS →
      ∃ objs1 ubo1,
        update glmRotate frameTime gameObjects ubo = some (objs1, ubo1) ∧
        ubo1.numLights = ((lightsOf gameObjects).length : Int) ∧
        ∀ (j : Nat) (hv : j < MAX_LIGHTS) (o : GameObject),
          (lightsOf gameObjects).get? j = some o →
          ubo1.pointLights ⟨j, hv⟩ =
            uboLightRecord (rotateObj
              (glmRotate (1 / 2 * frameTime) ⟨-(1 / 2), -1, 0⟩) o)) ∧
    (MAX_LIGHTS < (lightsOf gameObjects).length →
      update glmRotate frameTime gameObjects ubo = none) := by
  constructor
  · intro hcap
    obtain ⟨objs1, ubo1, heq, hobjs, hnum, hun, hwr⟩ :=
      updateLoop_success (glmRotate (1 / 2 * frameTime) ⟨-(1 / 2), -1, 0⟩)
        gameObjects ubo 0 (by omega)
    refine ⟨objs1,
      { ubo1 with numLights :=
          ((0 + (lightsOf gameObjects).length : Nat) : Int) }, ?_, ?_, ?_⟩
    · simp only [update]
      rw [heq]
      rfl
    · norm_num
    · intro j hv o hget
      have hfin : (⟨j, hv⟩ : Fin MAX_LIGHTS) = ⟨0 + j, by omega⟩ :=
        Fin.ext (show j = 0 + j by omega)
      rw [hfin]
      exact hwr j (by omega) o hget
  · intro hover
    have h0 : 0 < (lightsOf gameObjects).length := by omega
    have hnone := updateLoop_overflow
      (glmRotate (1 / 2 * frameTime) ⟨-(1 / 2), -1, 0⟩) gameObjects ubo 0 h0
      (by omega)
    simp only [update]
    rw [hnone]
    rfl

/-- Witness for C6: one light is far below the cap, so the update pass
succeeds. -/
theorem update_light_cap_witness :
    (lightsOf c6Objs).length ≤ MAX_LIGHTS ∧
      ∃ objs1 ubo1,
        update idRotate 1 c6Objs c6Ubo = some (objs1, ubo1) ∧
        ubo1.numLights = ((lightsOf c6Objs).length : Int) ∧
        ∀ (j : Nat) (hv : j < MAX_LIGHTS) (o : GameObject),
          (lightsOf c6Objs).get? j = some o →
          ubo1.pointLights ⟨j, hv⟩ =
            uboLightRecord (rotateObj
              (idRotate (1 / 2 * 1) ⟨-(1 / 2), -1, 0⟩) o) :=
  ⟨by decide, (update_light_cap idRotate 1 c6Objs c6Ubo).1 (by decide)⟩

/-- Claim C7: the per-frame pass of the light system both mutates every
light's position — rotating it by the angle `0.5 * frameTime` about the fixed
axis `(-0.5, -1, 0)` — and writes every light into the bounded UBO array
(final count = number of lights, under the cap), and resolves the draw order
and emits the records from those already-mutated positions. -/
theorem unit_frame_effects (glmRotate : ℚ → Vec3 → Vec3 → Vec3)
    (frameTime : ℚ) (cameraPosition : Vec3)
    (gameObjects : List GameObject) (ubo : GlobalUbo)
    (hcap : (lightsOf gameObjects).length ≤ MAX_LIGHTS) :
    ∃ objs1 ubo1 records,
      unitSystemFrame glmRotate frameTime cameraPosition gameObjects ubo =
        some (objs1, ubo1, records) ∧
      objs1 = gameObjects.map (fun o =>
        if o.pointLight.isSome
        then rotateObj (glmRotate (1 / 2 * frameTime) ⟨-(1 / 2), -1, 0⟩) o
        else o) ∧
      ubo1.numLights = ((lightsOf gameObjects).length : Int) ∧
      records = render cameraPosition objs1 := by
  obtain ⟨objs1, ubo1, heq, hobjs, hnum, hun, hwr⟩ :=
    updateLoop_success (glmRotate (1 / 2 * frameTime) ⟨-(1 / 2), -1, 0⟩)
      gameObjects ubo 0 (by omega)
  refine ⟨objs1,
    { ubo1 with numLights := ((0 + (lightsOf gameObjects).length : Nat) : Int) },
    render cameraPosition objs1, ?_, hobjs, ?_, rfl⟩
  · simp only [unitSystemFrame, update]
    rw [heq]
    rfl
  · norm_num

/-- Witness for C7 on a one-light frame. -/
theorem unit_frame_effects_witness :
    (lightsOf c7Objs).length ≤ MAX_LIGHTS ∧
      ∃ objs1 ubo1 records,
        unitSystemFrame idRotate 2 ⟨0, 0, 0⟩ c7Objs c7Ubo =
          some (objs1, ubo1, records) ∧
        objs1 = c7Objs.map (fun o =>
          if o.pointLight.isSome
          then rotateObj (idRotate (1 / 2 * 2) ⟨-(1 / 2), -1, 0⟩) o
          else o) ∧
        ubo1.numLights = ((lightsOf c7Objs).length : Int) ∧
        records = render ⟨0, 0, 0⟩ objs1 :=
  ⟨by decide,
    unit_frame_effects idRotate 2 ⟨0, 0, 0⟩ c7Objs c7Ubo (by decide)⟩
